import Mathlib

/-!
Verification of `selcald.py`, a passive ICAO SELCAL decoder.

Shallow embedding conventions:
* Audio samples and DSP quantities are real numbers (`ℝ`), exactly as the
  floating-point program computes with real-valued formulas.
* Wall-clock times (`time.time()` values) are rationals (`ℚ`), so the timing
  state machines stay decidable.
* A SELCAL pair and a SELCAL code are Python strings, modelled as `String`.
* The on-disk log file is modelled as `Option String` (`none` = file absent).
* The per-tick body of `listen_live`'s inner loop (lines 259-296) is the pure
  step function `tick`; the effect of `print` and of the argument handed to
  `log_selcal` are recorded in the returned `TickOut` record.
-/

/- ===== Configuration constants (selcald.py lines 10-38). ===== -/

def SAMPLE_RATE : ℝ := 8000
def WINDOW_SECONDS : ℝ := 1.0
def STEP_SECONDS : ℚ := 0.2
def FULL_CODE_LOCKOUT : ℚ := 4.0
def SILENCE_RMS_MAX : ℝ := 0.00015
def FLATNESS_MAX : ℝ := 0.8
def GOERTZEL_MIN_POWER : ℝ := 0.00018
def GOERTZEL_RATIO : ℝ := 1.8
def PAIR_POWER_SUM : ℝ := 0.003
def PAIR_GAP_MIN : ℚ := 0.45
def PAIR_GAP_MAX : ℚ := 0.9

/-- Assigned twice in the source (line 27: `0.015`, line 31: `0.15`); the later
assignment is the value in effect when the module finishes loading. -/
def PAIR_POWER_MIN : ℝ := 0.15

def PAIR_IMBALANCE_MAX : ℝ := 4.0

/-- A two-letter burst content, a Python string in the source. -/
abbrev Pair := String

/-- A four-letter SELCAL code, a Python string in the source. -/
abbrev Code := String

/- ===== Code validation (selcald.py lines 48-62). ===== -/

/-- Validation of a code (`is_valid_selcal`): length exactly 4, no duplicate
letters anywhere (`len(set(code)) != 4`), and the two letters of each half
distinct (defensive).  `code.data.dedup.length` is the number of distinct
characters, i.e. `len(set(code))`. -/
def is_valid_selcal (code : Code) : Bool :=
  if code.length ≠ 4 then false
  else
    match code.data with
    | [a, b, c, d] =>
      if code.data.dedup.length ≠ 4 then false
      else if a = b ∨ c = d then false
      else true
    | _ => false

/- ===== Logging (selcald.py lines 67-76). ===== -/

/-- Prepend-at-head logging (`log_selcal`).  The file system is `Option String`
(contents of `LOG_FILE`, `none` when the file does not exist).  The `try`
around the read catches exactly `FileNotFoundError`, yielding `old = ""`.
The write (`open(LOG_FILE, "w")`) is guarded by no handler in the source;
`writeOk = false` models an I/O error raised by it, which propagates to the
caller (`Except.error`). -/
def log_selcal (fs : Option String) (line : String) (writeOk : Bool) :
    Except Unit (Option String) :=
  let old := match fs with
    | some contents => contents
    | none => ""
  if writeOk then Except.ok (some (line ++ "\n" ++ old)) else Except.error ()

/- ===== Registry dictionary (selcald.py lines 80-89). ===== -/

/-- Handling of one dictionary line (the body of the `for` loop of
`load_selcal_dictionary`, lines 83-87): the stripped line is split on tabs; a
line with at least four fields maps the stripped code to `"(reg ac op)"`,
overwriting any earlier entry, exactly the Python `dict` assignment; shorter
lines are skipped. -/
def dict_line_step (d : String → Option String) (line : String) :
    String → Option String :=
  match line.trim.splitOn "\t" with
  | code :: reg :: ac :: op :: _ =>
    fun k => if k = code.trim then some ("(" ++ reg ++ " " ++ ac ++ " " ++ op ++ ")") else d k
  | _ => d

/-- Loading of the registry dictionary (`load_selcal_dictionary`), given the
lines of the file.  The dictionary is modelled as the lookup function
`String → Option String` (`d.get(code, "")` becomes `(d code).getD ""`). -/
def load_selcal_dictionary (lines : List String) : String → Option String :=
  lines.foldl dict_line_step (fun _ => none)

/- ===== Pair tracker (selcald.py lines 93-124). ===== -/

/-- PairTracker state.  In the source, `first_pair` and `first_time` are
always assigned together (`update`) and cleared together (`reset`); they are
modelled as one `Option`.  The fields `current_pair` and `start_time` are
written by `reset` but never read anywhere, and are omitted. -/
abbrev TrackerState := Option (Pair × ℚ)

namespace PairTracker

/-- The `reset` method: back to the idle state. -/
def reset : TrackerState := none

/-- The `update` method (lines 103-124), as a pure function from the tracker
state to the new state plus the returned code (`None` = no code). -/
def update (st : TrackerState) (pair : Pair) (now : ℚ) : TrackerState × Option Code :=
  match st with
  | none => (some (pair, now), none)
  | some (fp, ft) =>
    if pair = fp then (some (fp, ft), none)
    else
      let gap := now - ft
      if ¬ (PAIR_GAP_MIN ≤ gap ∧ gap ≤ PAIR_GAP_MAX) then (reset, none)
      else (reset, some (fp ++ pair))

end PairTracker

/- ===== Emission lockout (selcald.py lines 283-296). ===== -/

/-- Emitter state: `(last_full_code, last_full_time)`, initially `(none, 0)`
(lines 238-239). -/
abbrev EmitterState := Option Code × ℚ

/-- The lockout decision of lines 284-296, on one validated code: emit iff the
code differs from the last emitted code or at least `FULL_CODE_LOCKOUT`
seconds have elapsed; on emission the state becomes `(some code, now)`,
otherwise it is unchanged. -/
def emitStep (st : EmitterState) (code : Code) (now : ℚ) : EmitterState × Bool :=
  if some code ≠ st.1 ∨ now - st.2 ≥ FULL_CODE_LOCKOUT then ((some code, now), true)
  else (st, false)

/-- The sequence of emissions produced by running the lockout logic over a
sequence of validated codes with their arrival times. -/
def emitTrace (st : EmitterState) : List (Code × ℚ) → List (Code × ℚ)
  | [] => []
  | (c, t) :: rest =>
    let step := emitStep st c t
    if step.2 then (c, t) :: emitTrace step.1 rest else emitTrace step.1 rest

/- ===== DSP (selcald.py lines 131-177). ===== -/

/-- Arithmetic mean (`np.mean`); the analyzer only applies it to the non-empty
one-second window. -/
noncomputable def listMean (l : List ℝ) : ℝ := l.sum / l.length

/-- Python `int()`: truncation toward zero (the argument is nonnegative at
every call site of the program). -/
noncomputable def pyInt (x : ℝ) : ℤ := if 0 ≤ x then ⌊x⌋ else -⌊-x⌋

/-- Goertzel magnitude (`goertzel_mag`, lines 131-143): second-order recursion
tuned to bin `k = int(0.5 + n*freq/fs)`, with `coeff = 2*cos(2*pi*k/n)`; the
fold state is `(s_prev, s_prev2)`. -/
noncomputable def goertzel_mag (samples : List ℝ) (freq fs : ℝ) : ℝ :=
  let n := samples.length
  let k := pyInt (0.5 + (n * freq) / fs)
  let w := 2.0 * Real.pi * k / n
  let coeff := 2.0 * Real.cos w
  let s := samples.foldl (fun (p : ℝ × ℝ) x => (x + coeff * p.1 - p.2, p.1)) (0.0, 0.0)
  Real.sqrt (s.2 ^ 2 + s.1 ^ 2 - s.1 * s.2 * coeff)

/-- Goertzel power (`goertzel_power`, lines 145-157): the same recursion with
fold state `(q1, q2)`, final expression divided by `n`. -/
noncomputable def goertzel_power (samples : List ℝ) (freq fs : ℝ) : ℝ :=
  let n := samples.length
  let k := pyInt (0.5 + (n * freq) / fs)
  let w := 2.0 * Real.pi * k / n
  let coeff := 2.0 * Real.cos w
  let q := samples.foldl (fun (p : ℝ × ℝ) s => (coeff * p.1 - p.2 + s, p.1)) (0.0, 0.0)
  (q.1 * q.1 + q.2 * q.2 - q.1 * q.2 * coeff) / n

/-- Dual-tone confirmation (`confirm_dual_tone`, lines 159-173): absolute
power floor, signal-to-noise gate, and loose combined-power gate, returning
the verdict together with `p1`, `p2` and the noise proxy. -/
noncomputable def confirm_dual_tone (samples : List ℝ) (f1 f2 : ℝ) :
    Bool × ℝ × ℝ × ℝ :=
  let p1 := goertzel_power samples f1 SAMPLE_RATE
  let p2 := goertzel_power samples f2 SAMPLE_RATE
  let noise := listMean (samples.map (fun x => x ^ 2)) + 1e-12
  if p1 < GOERTZEL_MIN_POWER ∨ p2 < GOERTZEL_MIN_POWER then (false, p1, p2, noise)
  else if min p1 p2 < noise * GOERTZEL_RATIO then (false, p1, p2, noise)
  else if p1 + p2 < PAIR_POWER_SUM then (false, p1, p2, noise)
  else (true, p1, p2, noise)

/-- Spectral flatness (`spectral_flatness`, lines 175-177): geometric over
arithmetic mean of the magnitude vector shifted by `1e-12`. -/
noncomputable def spectral_flatness (mags : List ℝ) : ℝ :=
  let m := mags.map (fun x => x + 1e-12)
  Real.exp (listMean (m.map Real.log)) / listMean m

/- ===== Pair detector (selcald.py lines 181-226). ===== -/

/-- Magnitudes of all sixteen tone bins (line 182). -/
noncomputable def tone_mags (samples : List ℝ) (freqs : List ℝ) : List ℝ :=
  freqs.map (fun f => goertzel_mag samples f SAMPLE_RATE)

/-- Powers of all tone bins, used to count bins above the power floor. -/
noncomputable def tone_powers (samples : List ℝ) (freqs : List ℝ) : List ℝ :=
  freqs.map (fun f => goertzel_power samples f SAMPLE_RATE)

/-- Letters zipped with magnitudes and sorted by magnitude descending
(line 184, `sorted(zip(letters, mags), key=..., reverse=True)`).  Python's
sort is stable; `List.mergeSort` with `le a b := b.2 ≤ a.2` keeps elements of
equal magnitude in their original order, matching `reverse=True`. -/
noncomputable def ranked_pairs (letters : List Char) (mags : List ℝ) : List (Char × ℝ) :=
  (letters.zip mags).mergeSort (fun a b => decide (b.2 ≤ a.2))

/-- Canonical reordering of the two strongest letters (lines 195-204): the
pair is ordered by index in the tone table, not by magnitude, and carries the
corresponding frequencies.  Python raises `IndexError` when `freqs` is
shorter than `letters`; the `getD _ 0` default is unreachable for the
sixteen-entry table. -/
def canonical_order (letters : List Char) (freqs : List ℝ) (l1 l2 : Char) :
    Pair × ℝ × ℝ :=
  let i1 := letters.indexOf l1
  let i2 := letters.indexOf l2
  if i1 < i2 then (String.mk [l1, l2], freqs.getD i1 0, freqs.getD i2 0)
  else (String.mk [l2, l1], freqs.getD i2 0, freqs.getD i1 0)

/-- The pair detector (`decode_selcal`, lines 181-226).  The `match` mirrors
the accesses `ranked[:2]` and `ranked[2]`; its catch-all arm is unreachable
for the sixteen-letter table (Python would raise on fewer than three
letters).  `cd` is the `confirm_dual_tone` result `(ok, p1, p2, noise)`. -/
noncomputable def decode_selcal (samples : List ℝ) (letters : List Char)
    (freqs : List ℝ) : Option Pair :=
  let mags := tone_mags samples freqs
  match ranked_pairs letters mags with
  | (l1, _) :: (l2, m2) :: (_, m3) :: _ =>
    if m3 > m2 * 0.85 then none
    else if l1 = l2 then none
    else
      let co := canonical_order letters freqs l1 l2
      let cd := confirm_dual_tone samples co.2.1 co.2.2
      if cd.1 = false then none
      else if cd.2.1 + cd.2.2.1 < PAIR_POWER_MIN then none
      else if max cd.2.1 cd.2.2.1 / max (min cd.2.1 cd.2.2.1) 1e-6 > PAIR_IMBALANCE_MAX then none
      else if spectral_flatness mags > FLATNESS_MAX then none
      else some co.1
  | _ => none

/- ===== Main loop tick (selcald.py lines 231-296). ===== -/

/-- Window root-mean-square, line 265 (`np.sqrt(np.mean(samples**2))`). -/
noncomputable def window_rms (samples : List ℝ) : ℝ :=
  Real.sqrt (listMean (samples.map (fun x => x ^ 2)))

/-- Per-run state of `listen_live`: the tracker, `last_full_code` (initially
`None`), `last_full_time` (initially `0`), and the contents of `LOG_FILE` on
disk (`none` = the file does not exist). -/
structure LoopState where
  tracker : TrackerState
  last_full_code : Option Code
  last_full_time : ℚ
  log_file : Option String
deriving DecidableEq

/-- One emission record: the formatted output line and the validated code it
carries. -/
structure Emission where
  line : String
  code : Code
deriving DecidableEq

/-- Result of one tick of the inner loop.  `printed` is the argument passed to
`print` (line 292); `logged` is the argument handed to `log_selcal`
(line 293); `halted` records that an exception other than
`KeyboardInterrupt` escaped the tick — `listen_live` catches only
`KeyboardInterrupt` (line 300), so such an exception terminates the loop. -/
structure TickOut where
  state : LoopState
  emit : Option Emission
  printed : Option String
  logged : Option String
  halted : Bool
deriving DecidableEq

/-- The emission action of lines 288-296, reached once a validated code has
passed the lockout test: build the line from the timestamp `ts`
(`datetime.now().strftime("%d/%m/%y %H:%M:%S")`, modelled opaquely) and the
dictionary description (`selcal_dict.get(code, "")`), print it, hand it to
`log_selcal`, and update `(last_full_code, last_full_time)` — unless the log
write raises, in which case the update never executes and the exception
escapes the loop. -/
def emit_action (selcal_dict : String → Option String) (writeOk : Bool)
    (st : LoopState) (code : Code) (now : ℚ) (ts : String) : TickOut :=
  let desc := (selcal_dict code).getD ""
  let line := ts ++ " " ++ code ++ " " ++ desc
  match log_selcal st.log_file line writeOk with
  | Except.error _ => ⟨st, some ⟨line, code⟩, some line, some line, true⟩
  | Except.ok fs =>
    ⟨{ st with last_full_code := some code, last_full_time := now, log_file := fs },
     some ⟨line, code⟩, some line, some line, false⟩

/-- One tick of the inner loop of `listen_live` (lines 259-296): silence gate,
pair detection, pair tracking, validation, lockout, emission.  `samples` is
the rolled window snapshot, `now` is `time.time()`, `ts` the formatted local
wall-clock timestamp of this tick. -/
noncomputable def tick (letters : List Char) (freqs : List ℝ)
    (selcal_dict : String → Option String) (writeOk : Bool)
    (st : LoopState) (samples : List ℝ) (now : ℚ) (ts : String) : TickOut :=
  if window_rms samples < SILENCE_RMS_MAX then ⟨st, none, none, none, false⟩
  else
    match decode_selcal samples letters freqs with
    | none => ⟨st, none, none, none, false⟩
    | some pair =>
      let tr := PairTracker.update st.tracker pair now
      let st1 : LoopState := { st with tracker := tr.1 }
      match tr.2 with
      | none => ⟨st1, none, none, none, false⟩
      | some code =>
        if is_valid_selcal code = false then ⟨st1, none, none, none, false⟩
        else if some code ≠ st1.last_full_code ∨ now - st1.last_full_time ≥ FULL_CODE_LOCKOUT then
          emit_action selcal_dict writeOk st1 code now ts
        else ⟨st1, none, none, none, false⟩

/- ===== Helper lemmas. ===== -/

/-- The two Goertzel recursions (lines 137-141 and 151-155) compute the same
final state for the same coefficient. -/
lemma goertzel_fold_eq (samples : List ℝ) (c : ℝ) :
    samples.foldl (fun (p : ℝ × ℝ) s => (c * p.1 - p.2 + s, p.1)) (0.0, 0.0) =
      samples.foldl (fun (p : ℝ × ℝ) x => (x + c * p.1 - p.2, p.1)) (0.0, 0.0) := by
  apply List.foldl_ext
  intro p x _
  simp only [Prod.mk.injEq]
  refine ⟨by ring, by trivial⟩

/-- The quantity under the square root in `goertzel_mag` is nonnegative,
because the coefficient is twice a cosine. -/
lemma goertzel_expr_nonneg (a b w : ℝ) :
    0 ≤ b ^ 2 + a ^ 2 - a * b * (2.0 * Real.cos w) := by
  have h1 := Real.cos_le_one w
  have h2 := Real.neg_one_le_cos w
  nlinarith [sq_nonneg (a - b), sq_nonneg (a + b)]

/- ===== C6 ===== -/

/-- C6.  For every window of samples and every frequency, `goertzel_power`
equals `goertzel_mag` squared divided by the window length: both run the same
second-order recursion tuned to bin `k = int(0.5 + n*f/fs)`, the magnitude is
the square root of `s1^2 + s2^2 - s1*s2*coeff`, and the power is that same
expression divided by `n`. -/
theorem goertzel_power_eq_mag_sq (samples : List ℝ) (freq fs : ℝ) :
    goertzel_power samples freq fs =
      goertzel_mag samples freq fs ^ 2 / samples.length := by
  simp only [goertzel_power, goertzel_mag]
  rw [goertzel_fold_eq]
  rw [Real.sq_sqrt (goertzel_expr_nonneg _ _ _)]
  ring

/- ===== C9 ===== -/

/-- C9.  After a completed `log_selcal(line)` (no write error), the log file
contains the new line, a newline, then the entire previous contents; when the
file did not exist, it is created containing just the new line and a
newline. -/
theorem log_selcal_prepend (line old : String) :
    log_selcal (some old) line true = Except.ok (some (line ++ "\n" ++ old)) ∧
    log_selcal none line true = Except.ok (some (line ++ "\n")) := by
  refine ⟨rfl, ?_⟩
  simp [log_selcal]

/- ===== C10 ===== -/

/-- C10 counterexample.  An I/O error raised while writing the log during an
emission does not leave the detection loop running: at this concrete
emission the tick halts (`halted = true` records an exception that
`listen_live`, which catches only `KeyboardInterrupt`, lets escape),
contradicting the claim that the failure does not halt the program. -/
theorem log_write_error_halts_cex :
    (emit_action (fun _ => none) false ⟨none, none, 0, none⟩ "ABCD" 1
        "01/01/25 00:00:00").halted = true := rfl

/-- C10 amended.  If an I/O error occurs while writing the log file during an
emission, the exception propagates out of the detection loop (whose only
handler is for `KeyboardInterrupt`) and the run halts; the state update of
lines 295-296 never executes, so no further emission is attempted. -/
theorem log_write_error_propagates (selcal_dict : String → Option String)
    (st : LoopState) (code : Code) (now : ℚ) (ts : String) :
    (emit_action selcal_dict false st code now ts).halted = true ∧
    (emit_action selcal_dict false st code now ts).state = st := by
  simp [emit_action, log_selcal]

/- ===== C2 ===== -/

/-- C2.  `PairTracker.update` implements the two-state machine: in the idle
state it stores `(first_pair, first_time)` and returns no code; in the
awaiting state an input equal to the stored pair returns no code and leaves
the stored pair and time unchanged; a differing pair whose gap lies outside
`[PAIR_GAP_MIN, PAIR_GAP_MAX]` resets to idle with no code; a differing pair
with the gap inside the bounds returns `first_pair ++ pair` and resets to
idle. -/
theorem pair_tracker_update_spec (st : TrackerState) (pair : Pair) (now : ℚ) :
    (st = none → PairTracker.update st pair now = (some (pair, now), none)) ∧
    (∀ fp ft, st = some (fp, ft) →
      (pair = fp → PairTracker.update st pair now = (some (fp, ft), none)) ∧
      (pair ≠ fp → (now - ft < PAIR_GAP_MIN ∨ PAIR_GAP_MAX < now - ft) →
        PairTracker.update st pair now = (none, none)) ∧
      (pair ≠ fp → PAIR_GAP_MIN ≤ now - ft → now - ft ≤ PAIR_GAP_MAX →
        PairTracker.update st pair now = (none, some (fp ++ pair)))) := by
  refine ⟨fun h => by subst h; rfl, fun fp ft h => ?_⟩
  subst h
  refine ⟨fun hp => ?_, fun hp hgap => ?_, fun hp h1 h2 => ?_⟩
  · simp [PairTracker.update, hp]
  · have hnot : ¬ (PAIR_GAP_MIN ≤ now - ft ∧ now - ft ≤ PAIR_GAP_MAX) := by
      rcases hgap with hlt | hgt
      · exact fun hh => absurd hh.1 (not_le.mpr hlt)
      · exact fun hh => absurd hh.2 (not_le.mpr hgt)
    simp only [PairTracker.update]
    rw [if_neg hp, if_pos hnot]
    rfl
  · simp only [PairTracker.update]
    rw [if_neg hp, if_neg (not_not_intro ⟨h1, h2⟩)]
    rfl

/-- C2 witness: the four transitions at concrete inputs (store, same-pair
ignore, out-of-gap reset, in-gap emission `"AB" + "CD" = "ABCD"`). -/
theorem pair_tracker_update_spec_witness :
    PairTracker.update none "CD" 2 = (some ("CD", 2), none) ∧
    PairTracker.update (some ("AB", 0)) "AB" 1 = (some ("AB", 0), none) ∧
    PairTracker.update (some ("AB", 0)) "CD" 2 = (none, none) ∧
    PairTracker.update (some ("AB", 0)) "CD" (1/2) = (none, some "ABCD") :=
  ⟨(pair_tracker_update_spec none "CD" 2).1 rfl,
   ((pair_tracker_update_spec (some ("AB", 0)) "AB" 1).2 "AB" 0 rfl).1 rfl,
   ((pair_tracker_update_spec (some ("AB", 0)) "CD" 2).2 "AB" 0 rfl).2.1
     (by decide) (Or.inr (by norm_num [PAIR_GAP_MAX])),
   ((pair_tracker_update_spec (some ("AB", 0)) "CD" (1/2)).2 "AB" 0 rfl).2.2
     (by decide) (by norm_num [PAIR_GAP_MIN]) (by norm_num [PAIR_GAP_MAX])⟩

/- ===== C3 ===== -/

/-- A non-emitting lockout step leaves the emitter state unchanged. -/
lemma emitStep_not_emit {st : EmitterState} {c : Code} {t : ℚ}
    (h : (emitStep st c t).2 = false) : (emitStep st c t).1 = st := by
  unfold emitStep at h ⊢
  split at h
  · exact absurd h (by simp)
  · next hcond => rw [if_neg hcond]

/-- An emitting lockout step moves the emitter state to `(some c, t)`. -/
lemma emitStep_emit {st : EmitterState} {c : Code} {t : ℚ}
    (h : (emitStep st c t).2 = true) : (emitStep st c t).1 = (some c, t) := by
  unfold emitStep at h ⊢
  split at h
  · next hcond => rw [if_pos hcond]
  · exact absurd h (by simp)

/-- While `last_full_code = c` at time `t`, the first further emission of the
same code `c` happens at least `FULL_CODE_LOCKOUT` seconds after `t`. -/
lemma emitTrace_head_gap :
    ∀ (inputs : List (Code × ℚ)) (c : Code) (t : ℚ) (x : Code × ℚ),
      (emitTrace (some c, t) inputs).head? = some x →
      x.1 = c → FULL_CODE_LOCKOUT ≤ x.2 - t := by
  intro inputs
  induction inputs with
  | nil => intro c t x h; simp [emitTrace] at h
  | cons p rest ih =>
    intro c t x h hx
    obtain ⟨cIn, tIn⟩ := p
    by_cases he : (emitStep (some c, t) cIn tIn).2 = true
    · rw [emitTrace] at h
      simp only [he, if_true] at h
      simp only [List.head?_cons, Option.some.injEq] at h
      subst h
      have hcond : some cIn ≠ (some c, t).1 ∨ tIn - (some c, t).2 ≥ FULL_CODE_LOCKOUT := by
        by_contra hcon
        unfold emitStep at he
        rw [if_neg hcon] at he
        exact absurd he (by simp)
      rcases hcond with hne | hge
      · exact absurd (by simpa using hx) (by simpa using hne)
      · simpa using hge
    · have he' : (emitStep (some c, t) cIn tIn).2 = false := by
        revert he; cases (emitStep (some c, t) cIn tIn).2 <;> simp
      rw [emitTrace] at h
      simp only [he', if_false, Bool.false_eq_true] at h
      rw [emitStep_not_emit he'] at h
      exact ih c t x h hx

/-- Any run of the lockout logic satisfies the same-code separation
property between consecutive emissions. -/
lemma emitTrace_chain (inputs : List (Code × ℚ)) :
    ∀ st : EmitterState,
      List.Chain' (fun a b : Code × ℚ => a.1 = b.1 → FULL_CODE_LOCKOUT ≤ b.2 - a.2)
        (emitTrace st inputs) := by
  induction inputs with
  | nil => intro st; simp [emitTrace]
  | cons p rest ih =>
    intro st
    obtain ⟨c, t⟩ := p
    by_cases he : (emitStep st c t).2 = true
    · rw [emitTrace]
      simp only [he, if_true]
      rw [emitStep_emit he]
      rw [List.chain'_cons']
      refine ⟨fun y hy hcy => ?_, ih _⟩
      exact emitTrace_head_gap rest c t y (Option.mem_def.mp hy) hcy.symm
    · have he' : (emitStep st c t).2 = false := by
        revert he; cases (emitStep st c t).2 <;> simp
      rw [emitTrace]
      simp only [he', if_false, Bool.false_eq_true]
      rw [emitStep_not_emit he']
      exact ih st

/-- C3.  A validated code is emitted iff it differs from the last emitted code
or at least `FULL_CODE_LOCKOUT` seconds have elapsed since the last emission;
consequently, in every run, two consecutive emissions of the same code are at
least `FULL_CODE_LOCKOUT` seconds apart, while consecutive emissions of
different codes have no minimum separation (here: a run whose two
consecutive emissions carry different codes zero seconds apart). -/
theorem emit_lockout_spec (st : EmitterState) (inputs : List (Code × ℚ)) :
    (∀ code now, (emitStep st code now).2 = true ↔
      (some code ≠ st.1 ∨ now - st.2 ≥ FULL_CODE_LOCKOUT)) ∧
    List.Chain' (fun a b : Code × ℚ => a.1 = b.1 → FULL_CODE_LOCKOUT ≤ b.2 - a.2)
      (emitTrace st inputs) ∧
    (∃ ins : List (Code × ℚ), ∃ a b : Code × ℚ,
      emitTrace (none, 0) ins = [a, b] ∧ a.1 ≠ b.1 ∧ b.2 - a.2 = 0) := by
  refine ⟨fun code now => ?_, emitTrace_chain inputs st, ?_⟩
  · unfold emitStep
    split
    · next hcond => simpa using hcond
    · next hcond => simpa using hcond
  · refine ⟨[("ABCD", 10), ("EFGH", 10)], ("ABCD", 10), ("EFGH", 10), ?_, by decide, by norm_num⟩
    simp [emitTrace, emitStep, FULL_CODE_LOCKOUT]

/-- C3 witness: the theorem applied to a concrete run of three arrivals of the
same code. -/
theorem emit_lockout_spec_witness :
    List.Chain' (fun a b : Code × ℚ => a.1 = b.1 → FULL_CODE_LOCKOUT ≤ b.2 - a.2)
      (emitTrace (none, 0) [("ABCD", 0), ("ABCD", 1), ("ABCD", 10)]) :=
  (emit_lockout_spec (none, 0) [("ABCD", 0), ("ABCD", 1), ("ABCD", 10)]).2.1

/- ===== Tick shape (shared by C1, C7, C8). ===== -/

/-- Every tick either produces nothing (no emission, nothing printed, nothing
handed to the log) or emits exactly one record: a code that passed
`is_valid_selcal`, carried by the line `ts ++ " " ++ code ++ " " ++ desc`
with `desc = selcal_dict.get(code, "")`, which is both printed and handed to
`log_selcal`. -/
lemma tick_shape (letters : List Char) (freqs : List ℝ)
    (selcal_dict : String → Option String) (writeOk : Bool) (st : LoopState)
    (samples : List ℝ) (now : ℚ) (ts : String) (out : TickOut)
    (hout : tick letters freqs selcal_dict writeOk st samples now ts = out) :
    (out.emit = none ∧ out.printed = none ∧ out.logged = none) ∨
    (∃ code : Code, is_valid_selcal code = true ∧
      out.emit = some ⟨ts ++ " " ++ code ++ " " ++ (selcal_dict code).getD "", code⟩ ∧
      out.printed = some (ts ++ " " ++ code ++ " " ++ (selcal_dict code).getD "") ∧
      out.logged = some (ts ++ " " ++ code ++ " " ++ (selcal_dict code).getD "")) := by
  unfold tick at hout
  split at hout
  · exact Or.inl (by rw [← hout]; exact ⟨rfl, rfl, rfl⟩)
  split at hout
  · exact Or.inl (by rw [← hout]; exact ⟨rfl, rfl, rfl⟩)
  next pair hdec =>
    dsimp only at hout
    split at hout
    · exact Or.inl (by rw [← hout]; exact ⟨rfl, rfl, rfl⟩)
    next code hcode =>
      split at hout
      · exact Or.inl (by rw [← hout]; exact ⟨rfl, rfl, rfl⟩)
      next hvalid =>
        split at hout
        · unfold emit_action at hout
          dsimp only at hout
          split at hout <;>
            exact Or.inr ⟨code, by simpa using hvalid, by rw [← hout],
              by rw [← hout], by rw [← hout]⟩
        · exact Or.inl (by rw [← hout]; exact ⟨rfl, rfl, rfl⟩)

/- ===== C1 ===== -/

/-- C1.  Every code emitted by the main loop passes `is_valid_selcal`, and the
printed and logged lines are exactly the lines of emissions, so a code that
fails validation is dropped with nothing printed and nothing logged. -/
theorem emitted_codes_valid (letters : List Char) (freqs : List ℝ)
    (selcal_dict : String → Option String) (writeOk : Bool) (st : LoopState)
    (samples : List ℝ) (now : ℚ) (ts : String) :
    Option.all (fun e => is_valid_selcal e.code)
      (tick letters freqs selcal_dict writeOk st samples now ts).emit = true ∧
    (tick letters freqs selcal_dict writeOk st samples now ts).printed =
      Option.map (fun e => e.line)
        (tick letters freqs selcal_dict writeOk st samples now ts).emit ∧
    (tick letters freqs selcal_dict writeOk st samples now ts).logged =
      Option.map (fun e => e.line)
        (tick letters freqs selcal_dict writeOk st samples now ts).emit := by
  rcases tick_shape letters freqs selcal_dict writeOk st samples now ts _ rfl with
    ⟨h1, h2, h3⟩ | ⟨code, hval, h1, h2, h3⟩
  · rw [h1, h2, h3]; exact ⟨rfl, rfl, rfl⟩
  · rw [h1, h2, h3]
    refine ⟨?_, rfl, rfl⟩
    simpa using hval

/- ===== C7 ===== -/

/-- C7.  A tick whose window root-mean-square is below `SILENCE_RMS_MAX` skips
the rest of the pipeline: the state (tracker included) is unchanged, nothing
is detected, printed, logged, or emitted. -/
theorem silence_gate_skips (letters : List Char) (freqs : List ℝ)
    (selcal_dict : String → Option String) (writeOk : Bool) (st : LoopState)
    (samples : List ℝ) (now : ℚ) (ts : String)
    (h : window_rms samples < SILENCE_RMS_MAX) :
    tick letters freqs selcal_dict writeOk st samples now ts =
      ⟨st, none, none, none, false⟩ := by
  unfold tick
  rw [if_pos h]

/-- C7 witness: a window of one zero sample has rms `0 < SILENCE_RMS_MAX`, and
the tick on it returns the state unchanged with no output. -/
theorem silence_gate_skips_witness :
    window_rms [0] < SILENCE_RMS_MAX ∧
    tick [] [] (fun _ => none) true ⟨none, none, 0, none⟩ [0] 0 "" =
      ⟨⟨none, none, 0, none⟩, none, none, none, false⟩ := by
  have h : window_rms [0] < SILENCE_RMS_MAX := by
    norm_num [window_rms, listMean, SILENCE_RMS_MAX, Real.sqrt_zero]
  exact ⟨h, silence_gate_skips [] [] (fun _ => none) true ⟨none, none, 0, none⟩ [0] 0 "" h⟩

/- ===== C8 ===== -/

/-- Every lookup in a loaded dictionary yields either the empty description or
a parenthesized `"(reg ac op)"` string built from a line with at least four
tab-separated fields. -/
lemma load_dict_shape (lines : List String) (c : String) :
    (load_selcal_dictionary lines c).getD "" = "" ∨
    ∃ reg ac op, (load_selcal_dictionary lines c).getD "" =
      "(" ++ reg ++ " " ++ ac ++ " " ++ op ++ ")" := by
  unfold load_selcal_dictionary
  have main : ∀ (ls : List String) (d : String → Option String),
      (∀ k, (d k).getD "" = "" ∨
        ∃ reg ac op, (d k).getD "" = "(" ++ reg ++ " " ++ ac ++ " " ++ op ++ ")") →
      ∀ k, ((ls.foldl dict_line_step d) k).getD "" = "" ∨
        ∃ reg ac op, ((ls.foldl dict_line_step d) k).getD "" =
          "(" ++ reg ++ " " ++ ac ++ " " ++ op ++ ")" := by
    intro ls
    induction ls with
    | nil => intro d hd k; exact hd k
    | cons line rest ih =>
      intro d hd k
      rw [List.foldl_cons]
      apply ih
      intro k2
      rcases hsp : line.trim.splitOn "\t" with _ | ⟨code, _ | ⟨reg, _ | ⟨ac, _ | ⟨op, tail⟩⟩⟩⟩ <;>
        simp only [dict_line_step, hsp]
      · exact hd k2
      · exact hd k2
      · exact hd k2
      · exact hd k2
      · by_cases hk : k2 = code.trim
        · rw [if_pos hk]
          exact Or.inr ⟨reg, ac, op, rfl⟩
        · rw [if_neg hk]
          exact hd k2
  exact main lines (fun _ => none) (fun k => Or.inl rfl) c

/-- C8.  The emitted line is the timestamp (modelled opaquely as the `ts`
argument, produced in the source by
`datetime.now().strftime("%d/%m/%y %H:%M:%S")`, i.e. local wall-clock
`DD/MM/YY HH:MM:SS`), the four-letter code, and the registry description,
which is always of the parenthesized form `"(reg ac op)"` for a known code
and empty for a code absent from the dictionary; the same line is printed to
stdout and handed to the log sink. -/
theorem emission_line_format (letters : List Char) (freqs : List ℝ)
    (selcal_dict : String → Option String) (writeOk : Bool) (st : LoopState)
    (samples : List ℝ) (now : ℚ) (ts : String) (lines : List String) (c : String) :
    (tick letters freqs selcal_dict writeOk st samples now ts).printed =
      (tick letters freqs selcal_dict writeOk st samples now ts).logged ∧
    Option.all
      (fun e => e.line == ts ++ " " ++ e.code ++ " " ++ (selcal_dict e.code).getD "")
      (tick letters freqs selcal_dict writeOk st samples now ts).emit = true ∧
    ((load_selcal_dictionary lines c).getD "" = "" ∨
      ∃ reg ac op, (load_selcal_dictionary lines c).getD "" =
        "(" ++ reg ++ " " ++ ac ++ " " ++ op ++ ")") := by
  refine ⟨?_, ?_, load_dict_shape lines c⟩ <;>
    rcases tick_shape letters freqs selcal_dict writeOk st samples now ts _ rfl with
      ⟨h1, h2, h3⟩ | ⟨code, hval, h1, h2, h3⟩
  · rw [h2, h3]
  · rw [h2, h3]
  · rw [h1]; rfl
  · rw [h1]
    simp

/- ===== Decode characterization (shared by C4, C5). ===== -/

/-- When `confirm_dual_tone` answers `true`, the reported powers are the
Goertzel powers of the two frequencies, the noise proxy is the mean squared
sample plus `1e-12`, and the floor, signal-to-noise, and loose combined-power
gates all hold. -/
lemma confirm_dual_tone_true {samples : List ℝ} {f1 f2 : ℝ} {p1 p2 noise : ℝ}
    (h : confirm_dual_tone samples f1 f2 = (true, p1, p2, noise)) :
    p1 = goertzel_power samples f1 SAMPLE_RATE ∧
    p2 = goertzel_power samples f2 SAMPLE_RATE ∧
    noise = listMean (samples.map (fun x => x ^ 2)) + 1e-12 ∧
    GOERTZEL_MIN_POWER ≤ p1 ∧ GOERTZEL_MIN_POWER ≤ p2 ∧
    noise * GOERTZEL_RATIO ≤ min p1 p2 ∧
    PAIR_POWER_SUM ≤ p1 + p2 := by
  unfold confirm_dual_tone at h
  dsimp only at h
  split at h
  · simp at h
  next hc1 =>
    split at h
    · simp at h
    next hc2 =>
      split at h
      · simp at h
      next hc3 =>
        simp only [Prod.mk.injEq] at h
        obtain ⟨-, hp1, hp2, hn⟩ := h
        subst hp1; subst hp2; subst hn
        push_neg at hc1
        refine ⟨rfl, rfl, rfl, hc1.1, hc1.2, le_of_not_lt hc2, le_of_not_lt hc3⟩

/-- Any pair returned by `decode_selcal` comes from the displayed path: the
top three ranked letters pass the third-tone gate, the top two are distinct,
the pair is the canonical reordering of the top two, `confirm_dual_tone`
accepted the canonical frequencies, and the strict combined-power, balance,
and flatness gates hold. -/
lemma decode_selcal_some_spec {samples : List ℝ} {letters : List Char}
    {freqs : List ℝ} {pair : Pair}
    (h : decode_selcal samples letters freqs = some pair) :
    ∃ l1 m1 l2 m2 l3 m3 rest p1 p2 noise,
      ranked_pairs letters (tone_mags samples freqs) =
        (l1, m1) :: (l2, m2) :: (l3, m3) :: rest ∧
      m3 ≤ m2 * 0.85 ∧
      l1 ≠ l2 ∧
      pair = (canonical_order letters freqs l1 l2).1 ∧
      confirm_dual_tone samples (canonical_order letters freqs l1 l2).2.1
        (canonical_order letters freqs l1 l2).2.2 = (true, p1, p2, noise) ∧
      PAIR_POWER_MIN ≤ p1 + p2 ∧
      max p1 p2 / max (min p1 p2) 1e-6 ≤ PAIR_IMBALANCE_MAX ∧
      spectral_flatness (tone_mags samples freqs) ≤ FLATNESS_MAX := by
  simp only [decode_selcal] at h
  rcases hR : ranked_pairs letters (tone_mags samples freqs) with
    _ | ⟨⟨l1, m1⟩, _ | ⟨⟨l2, m2⟩, _ | ⟨⟨l3, m3⟩, rest⟩⟩⟩ <;> rw [hR] at h
  · simp at h
  · simp at h
  · simp at h
  dsimp only at h
  split at h
  · simp at h
  next h3 =>
    split at h
    · simp at h
    next h12 =>
      rcases hcd : confirm_dual_tone samples (canonical_order letters freqs l1 l2).2.1
          (canonical_order letters freqs l1 l2).2.2 with ⟨ok, p1, p2, noise⟩
      rw [hcd] at h
      dsimp only at h
      split at h
      · simp at h
      next hok =>
        split at h
        · simp at h
        next hmin =>
          split at h
          · simp at h
          next hratio =>
            split at h
            · simp at h
            next hflat =>
              have hok2 : ok = true := by revert hok; cases ok <;> simp
              subst hok2
              exact ⟨l1, m1, l2, m2, l3, m3, rest, p1, p2, noise, rfl,
                le_of_not_lt h3, h12, (Option.some.inj h).symm, hcd,
                le_of_not_lt hmin, le_of_not_lt hratio, le_of_not_lt hflat⟩

/-- A letter appearing in the ranked list is a letter of the tone table. -/
lemma ranked_pairs_mem {letters : List Char} {mags : List ℝ} {x : Char × ℝ}
    (h : x ∈ ranked_pairs letters mags) : x.1 ∈ letters := by
  unfold ranked_pairs at h
  have h2 := (List.mergeSort_perm (letters.zip mags)
    (fun a b => decide (b.2 ≤ a.2))).mem_iff.mp h
  obtain ⟨a, b⟩ := x
  exact (List.of_mem_zip h2).1

/-- Two distinct members of a list have distinct first-occurrence indices. -/
lemma indexOf_ne {l : List Char} {a b : Char} (ha : a ∈ l) (hb : b ∈ l)
    (hab : a ≠ b) : l.indexOf a ≠ l.indexOf b := by
  intro he
  have hla := List.indexOf_lt_length.mpr ha
  have hlb := List.indexOf_lt_length.mpr hb
  have h1 := List.indexOf_get hla
  have h2 := List.indexOf_get hlb
  have hg : l.get ⟨l.indexOf a, hla⟩ = l.get ⟨l.indexOf b, hlb⟩ := by
    congr 1
    exact Fin.mk_eq_mk.mpr he
  exact hab ((h1.symm.trans hg).trans h2)

/-- A list with two distinct positions satisfying a predicate has at least two
elements counted by it. -/
lemma two_le_countP {α : Type} (p : α → Bool) :
    ∀ (l : List α) (i j : ℕ) (hi : i < l.length) (hj : j < l.length),
      i ≠ j → p (l.get ⟨i, hi⟩) = true → p (l.get ⟨j, hj⟩) = true →
      2 ≤ l.countP p := by
  intro l
  induction l with
  | nil => intro i j hi; simp at hi
  | cons x t ih =>
    intro i j hi hj hij hpi hpj
    rw [List.countP_cons]
    rcases i with _ | iPred
    · rcases j with _ | jPred
      · exact absurd rfl hij
      · have hx : p x = true := hpi
        have h1 : 0 < t.countP p :=
          List.countP_pos_iff.mpr ⟨t.get ⟨jPred, by simpa using hj⟩, List.get_mem t _ _, hpj⟩
        rw [if_pos hx]
        omega
    · rcases j with _ | jPred
      · have hx : p x = true := hpj
        have h1 : 0 < t.countP p :=
          List.countP_pos_iff.mpr ⟨t.get ⟨iPred, by simpa using hi⟩, List.get_mem t _ _, hpi⟩
        rw [if_pos hx]
        omega
      · have h2 := ih iPred jPred (by simpa using hi) (by simpa using hj)
          (by omega) hpi hpj
        split <;> omega

/-- Modelled from the spec: the standard SELCAL-16 tone table (the contents of
`frequencies.json`, an external interface loaded at startup): sixteen
letters, A-S skipping I, N and O, each with its distinct ICAO frequency. -/
def selcal16_letters : List Char :=
  ['A', 'B', 'C', 'D', 'E', 'F', 'G', 'H', 'J', 'K', 'L', 'M', 'P', 'Q', 'R', 'S']

/-- Modelled from the spec: the frequencies (Hz) of the sixteen SELCAL
letters, parallel to `selcal16_letters`. -/
noncomputable def selcal16_freqs : List ℝ :=
  [312.6, 346.7, 384.6, 426.6, 473.2, 524.8, 582.1, 645.7,
   716.1, 794.3, 881.0, 977.2, 1083.9, 1202.3, 1333.5, 1479.1]

/- ===== C4 ===== -/

/-- All acceptance gates of the pair detector, stated over the pipeline
values: the third-tone rivalry bound on the ranked magnitudes, the
`confirm_dual_tone` verdict with the per-tone floor, signal-to-noise and
loose combined-power gates it implies, the strict combined-power gate, the
balance ratio bound, the spectral-flatness ceiling, and — consequently — at
least two of the tone bins at or above `GOERTZEL_MIN_POWER`. -/
def decode_gates_pass (samples : List ℝ) (letters : List Char) (freqs : List ℝ) : Prop :=
  ∃ l1 m1 l2 m2 l3 m3 rest p1 p2 noise,
    ranked_pairs letters (tone_mags samples freqs) =
      (l1, m1) :: (l2, m2) :: (l3, m3) :: rest ∧
    m3 ≤ m2 * 0.85 ∧
    confirm_dual_tone samples (canonical_order letters freqs l1 l2).2.1
      (canonical_order letters freqs l1 l2).2.2 = (true, p1, p2, noise) ∧
    GOERTZEL_MIN_POWER ≤ p1 ∧ GOERTZEL_MIN_POWER ≤ p2 ∧
    noise = listMean (samples.map (fun x => x ^ 2)) + 1e-12 ∧
    noise * GOERTZEL_RATIO ≤ min p1 p2 ∧
    PAIR_POWER_SUM ≤ p1 + p2 ∧
    PAIR_POWER_MIN ≤ p1 + p2 ∧
    max p1 p2 / max (min p1 p2) 1e-6 ≤ PAIR_IMBALANCE_MAX ∧
    spectral_flatness (tone_mags samples freqs) ≤ FLATNESS_MAX ∧
    2 ≤ (tone_powers samples freqs).countP (fun q => decide (GOERTZEL_MIN_POWER ≤ q))

/-- C4.  `decode_selcal` returns a pair only when every acceptance gate
passes (third-tone rivalry, per-tone power floor, signal-to-noise, both
combined-power thresholds, balance, flatness); in particular at least two of
the tone bins then have power at least `GOERTZEL_MIN_POWER`, so a window in
which fewer than two bins reach the floor yields no pair.  The hypothesis
records that `letters` and `freqs` are parallel lists, as in the
sixteen-entry tone table. -/
theorem decode_selcal_gates (samples : List ℝ) (letters : List Char)
    (freqs : List ℝ) (hlen : letters.length = freqs.length) :
    decode_selcal samples letters freqs = none ∨
    decode_gates_pass samples letters freqs := by
  rcases hd : decode_selcal samples letters freqs with _ | pair
  · exact Or.inl rfl
  right
  obtain ⟨l1, m1, l2, m2, l3, m3, rest, p1, p2, noise, hR, h3, h12, hpair, hcd,
    hmin, hratio, hflat⟩ := decode_selcal_some_spec hd
  obtain ⟨hp1, hp2, hnoise, hfl1, hfl2, hsnr, hsum⟩ := confirm_dual_tone_true hcd
  have hm1 : l1 ∈ letters := by
    apply ranked_pairs_mem (x := (l1, m1))
    rw [hR]
    exact List.mem_cons_self _ _
  have hm2 : l2 ∈ letters := by
    apply ranked_pairs_mem (x := (l2, m2))
    rw [hR]
    simp
  have hi1 : letters.indexOf l1 < letters.length := List.indexOf_lt_length.mpr hm1
  have hi2 : letters.indexOf l2 < letters.length := List.indexOf_lt_length.mpr hm2
  have hne : letters.indexOf l1 ≠ letters.indexOf l2 := indexOf_ne hm1 hm2 h12
  have hj1 : letters.indexOf l1 < freqs.length := hlen ▸ hi1
  have hj2 : letters.indexOf l2 < freqs.length := hlen ▸ hi2
  have hkey : GOERTZEL_MIN_POWER ≤
        goertzel_power samples (freqs.getD (letters.indexOf l1) 0) SAMPLE_RATE ∧
      GOERTZEL_MIN_POWER ≤
        goertzel_power samples (freqs.getD (letters.indexOf l2) 0) SAMPLE_RATE := by
    by_cases hlt : letters.indexOf l1 < letters.indexOf l2
    · simp only [canonical_order, if_pos hlt] at hp1 hp2
      exact ⟨hp1 ▸ hfl1, hp2 ▸ hfl2⟩
    · simp only [canonical_order, if_neg hlt] at hp1 hp2
      exact ⟨hp2 ▸ hfl2, hp1 ▸ hfl1⟩
  have hcount : 2 ≤ (tone_powers samples freqs).countP
      (fun q => decide (GOERTZEL_MIN_POWER ≤ q)) := by
    have hlp1 : letters.indexOf l1 < (tone_powers samples freqs).length := by
      simpa [tone_powers] using hj1
    have hlp2 : letters.indexOf l2 < (tone_powers samples freqs).length := by
      simpa [tone_powers] using hj2
    apply two_le_countP _ (tone_powers samples freqs)
      (letters.indexOf l1) (letters.indexOf l2) hlp1 hlp2 hne
    · simp only [tone_powers, List.get_eq_getElem, List.getElem_map,
        decide_eq_true_eq]
      rw [← List.getD_eq_getElem freqs 0 hj1]
      exact hkey.1
    · simp only [tone_powers, List.get_eq_getElem, List.getElem_map,
        decide_eq_true_eq]
      rw [← List.getD_eq_getElem freqs 0 hj2]
      exact hkey.2
  exact ⟨l1, m1, l2, m2, l3, m3, rest, p1, p2, noise, hR, h3, hcd,
    hfl1, hfl2, hnoise, hsnr, hsum, hmin, hratio, hflat, hcount⟩

/-- C4 witness: the theorem applied to a one-sample zero window and the
sixteen-entry table (whose letter and frequency lists have equal length). -/
theorem decode_selcal_gates_witness :
    selcal16_letters.length = selcal16_freqs.length ∧
    (decode_selcal [0] selcal16_letters selcal16_freqs = none ∨
      decode_gates_pass [0] selcal16_letters selcal16_freqs) :=
  ⟨rfl, decode_selcal_gates [0] selcal16_letters selcal16_freqs rfl⟩

/- ===== C5 ===== -/

/-- C5.  Whenever `decode_selcal` returns a pair, its two letters are
distinct and listed in ascending order of their index in the tone-table
letter list: the detector's output is always in canonical form. -/
theorem decode_selcal_canonical (samples : List ℝ) (letters : List Char)
    (freqs : List ℝ) :
    decode_selcal samples letters freqs = none ∨
    ∃ a b : Char, decode_selcal samples letters freqs = some (String.mk [a, b]) ∧
      a ≠ b ∧ letters.indexOf a < letters.indexOf b := by
  rcases hd : decode_selcal samples letters freqs with _ | pair
  · exact Or.inl rfl
  right
  obtain ⟨l1, m1, l2, m2, l3, m3, rest, p1, p2, noise, hR, h3, h12, hpair, hcd,
    hmin, hratio, hflat⟩ := decode_selcal_some_spec hd
  have hm1 : l1 ∈ letters := by
    apply ranked_pairs_mem (x := (l1, m1))
    rw [hR]
    exact List.mem_cons_self _ _
  have hm2 : l2 ∈ letters := by
    apply ranked_pairs_mem (x := (l2, m2))
    rw [hR]
    simp
  have hne : letters.indexOf l1 ≠ letters.indexOf l2 := indexOf_ne hm1 hm2 h12
  by_cases hlt : letters.indexOf l1 < letters.indexOf l2
  · refine ⟨l1, l2, ?_, h12, hlt⟩
    rw [hpair]
    simp [canonical_order, if_pos hlt]
  · have hlt2 : letters.indexOf l2 < letters.indexOf l1 := by omega
    refine ⟨l2, l1, ?_, fun he => h12 he.symm, hlt2⟩
    rw [hpair]
    simp [canonical_order, if_neg hlt]
